import Mathlib

/-!
Verification development for the `unscheduler` repository: a shallow embedding
of the schedule parsing engine (`unscheduler/parser.py`), its analytics
(`unscheduler/stats.py`), and the interactive boundary hour grammar
(`unscheduler/tui.py`), together with theorems settling the specification
claims about them.

Times of day are represented as minutes since midnight (`Nat`).  The Python
code stores blocks as zero-padded `HH:MM` strings after normalisation and
compares them either as `datetime.time` values or as those zero-padded
strings; both orders coincide with the numeric order on minutes, which is the
order used here.

The built-in `String` functions of this toolchain do not reduce inside the
kernel, so the Python string operations are modelled by structurally
recursive functions on the underlying character lists (`String.data`),
wrapped back into `String` where the parser stores text.
-/

deriving instance DecidableEq for Except

namespace Unscheduler

/-! ### Executable string primitives -/

def isWS (c : Char) : Bool := c.isWhitespace

/-- Python `str.strip()` on a character list. -/
def trimList (l : List Char) : List Char :=
  ((l.dropWhile isWS).reverse.dropWhile isWS).reverse

def pytrim (s : String) : String := ⟨trimList s.data⟩

/-- Split at every character satisfying `p`; runs of separators produce empty
groups, like Python `str.split(sep)`. -/
def splitPred (p : Char → Bool) : List Char → List (List Char)
  | [] => [[]]
  | a :: rest =>
    match splitPred p rest with
    | [] => [[a]]
    | g :: gs => if p a then [] :: g :: gs else (a :: g) :: gs

/-- Python `str.split(sep)` for a one character separator. -/
def splitChar (sep : Char) (l : List Char) : List (List Char) :=
  splitPred (fun c => c == sep) l

def intercalateChar (sep : Char) : List (List Char) → List Char
  | [] => []
  | [g] => g
  | g :: gs => g ++ sep :: intercalateChar sep gs

/-- Python `str.split()` with no argument: split on whitespace runs and drop
empty pieces. -/
def pysplit (s : String) : List String :=
  ((splitPred isWS s.data).filter (fun g => !g.isEmpty)).map (fun g => ⟨g⟩)

/-- Python `str.split(sep, 1)` for a one character separator: split at the
first occurrence only.  Returns a one element list when `sep` is absent. -/
def pysplit1 (s : String) (sep : Char) : List String :=
  match splitChar sep s.data with
  | [] => [s]
  | [x] => [⟨x⟩]
  | x :: rest => [⟨x⟩, ⟨intercalateChar sep rest⟩]

/-- Python `sep.join(words)` for a one character separator. -/
def joinWords (sep : Char) (ws : List String) : String :=
  ⟨intercalateChar sep (ws.map String.data)⟩

/-- Is the first character of `s` equal to `c` (Python `startswith` for a one
character prefix)? -/
def headIs (c : Char) (s : String) : Bool :=
  match s.data with
  | a :: _ => a == c
  | [] => false

def digitsToNat (l : List Char) : Nat :=
  l.foldl (fun n c => n * 10 + (c.toNat - '0'.toNat)) 0

/-- Python `int(s)` restricted to plain digit strings, as `Option`. -/
def pytoNat? (l : List Char) : Option Nat :=
  if !l.isEmpty && l.all Char.isDigit then some (digitsToNat l) else none

def lowerList (l : List Char) : List Char := l.map Char.toLower

/-! ### Generic helpers: Python set and dict primitives -/

/-- Python `set.add`, modelled on a duplicate-free list. -/
def addCat (cats : List String) (c : String) : List String :=
  if c ∈ cats then cats else cats ++ [c]

/-- Python dict lookup (`d.get(k)` / `k in d`), on an association list with
unique keys kept in insertion order. -/
def dictGet? {α : Type} : List (String × α) → String → Option α
  | [], _ => none
  | kv :: rest, k => if kv.1 = k then some kv.2 else dictGet? rest k

/-- Python dict write `d[k] = v`: overwrite in place if the key is present,
append otherwise (insertion order preserved). -/
def dictSet {α : Type} : List (String × α) → String → α → List (String × α)
  | [], k, v => [(k, v)]
  | kv :: rest, k, v =>
    if kv.1 = k then (k, v) :: rest else kv :: dictSet rest k v

/-- Python truthiness of an optional string: `None` and `""` are falsy. -/
def isTruthy : Option String → Bool
  | some c => !c.data.isEmpty
  | none => false

/-- Python `a or b` on optional strings (first operand if truthy, second
otherwise). -/
def pyOr (a b : Option String) : Option String :=
  if isTruthy a then a else b

/-! ### Constants (`unscheduler/constants.py`) -/

def DAY_CODES : String := "MTWRFSU"

def COLOR_PALETTE : List String :=
  ["#AEC7E8", "#FFBB78", "#98DF8A", "#FF9896", "#C5B0D5", "#C49C94",
   "#F7B6D2", "#DBDB8D", "#9EDAE5", "#AD494A"]

def DEFAULT_TRIGGER_COLOR : String := "black"

/-! ### Color assignment (`ColorAssigner` in `unscheduler/parser.py`)

The `print` side effect of the palette-exhaustion warning is modelled by the
`warnings` counter: it is incremented exactly when the source prints the
warning line. -/

structure ColorAssigner where
  palette : List String
  manual_color_map : List (String × String)
  auto_color_map : List (String × String)
  next_color_index : Nat
  palette_cycled : Bool
  warnings : Nat
deriving Repr, DecidableEq

def ColorAssigner.mk0 (palette : List String) : ColorAssigner :=
  ⟨palette, [], [], 0, false, 0⟩

def ColorAssigner.define_color (s : ColorAssigner) (category color : String) :
    ColorAssigner :=
  { s with manual_color_map := dictSet s.manual_color_map category color }

def ColorAssigner.get_color (s : ColorAssigner) (category : String) :
    String × ColorAssigner :=
  match dictGet? s.manual_color_map category with
  | some c => (c, s)
  | none =>
    match dictGet? s.auto_color_map category with
    | some c => (c, s)
    | none =>
      let warn := !s.palette_cycled && decide (s.palette.length ≤ s.next_color_index)
      let s1 : ColorAssigner :=
        { s with palette_cycled := s.palette_cycled || warn,
                 warnings := s.warnings + (if warn then 1 else 0) }
      let color := s1.palette.getD (s1.next_color_index % s1.palette.length) ""
      (color,
       { s1 with auto_color_map := dictSet s1.auto_color_map category color,
                 next_color_index := s1.next_color_index + 1 })

/-! ### Time tokens

Modelled from the spec: the general time-token grammar of section 4.3 step E
is implemented in the source by the external `dateutil` library, which is not
part of this repository; following the spec it accepts a numeric hour
(`H`/`HH`, value 0 to 23) with optional `a`/`p`/`am`/`pm` suffix, and
`H:MM`/`HH:MM`, with a meridiem suffix requiring an hour from 1 to 12
(`12a` is 00, `12p` is 12).  The result is an (hour, minute) pair. -/

def splitMeridiem (t : List Char) : List Char × Option Bool :=
  if ['a', 'm'].isSuffixOf t then (t.dropLast.dropLast, some false)
  else if ['p', 'm'].isSuffixOf t then (t.dropLast.dropLast, some true)
  else if ['a'].isSuffixOf t then (t.dropLast, some false)
  else if ['p'].isSuffixOf t then (t.dropLast, some true)
  else (t, none)

def parseHM (core : List Char) : Option (Nat × Nat) :=
  match splitChar ':' core with
  | [h] =>
    match pytoNat? h with
    | some hv => if 1 ≤ h.length && h.length ≤ 2 then some (hv, 0) else none
    | none => none
  | [h, m] =>
    match pytoNat? h, pytoNat? m with
    | some hv, some mv =>
      if 1 ≤ h.length && h.length ≤ 2 && m.length == 2 && mv ≤ 59
      then some (hv, mv) else none
    | _, _ => none
  | _ => none

/-- Modelled from the spec: the shared time-token parsing primitive
(`dateutil.parser.parse` in the source, external to this repository),
restricted to the time-of-day forms of the spec.  Returns the parsed
(hour, minute) with hour at most 23 and minute at most 59, or `none` when
the token is rejected. -/
def parse_dt_model (s : String) : Option (Nat × Nat) :=
  let t := lowerList (trimList s.data)
  let core := (splitMeridiem t).1
  let mer := (splitMeridiem t).2
  match parseHM core with
  | none => none
  | some hm =>
    match mer with
    | none => if hm.1 ≤ 23 then some hm else none
    | some isPM =>
      if 1 ≤ hm.1 && hm.1 ≤ 12 then
        some ((if isPM then (if hm.1 == 12 then 12 else hm.1 + 12)
               else (if hm.1 == 12 then 0 else hm.1)), hm.2)
      else none

/-- Minutes since midnight of a parsed time token. -/
def parseTime? (w : String) : Option Nat :=
  (parse_dt_model w).map (fun hm => hm.1 * 60 + hm.2)

/-! ### Boundary hour grammar (`unscheduler/tui.py`) -/

/-- The regex `^\s*24(?::?0{2})?\s*$`. -/
def h24Match (s : String) : Bool :=
  let t := trimList s.data
  t == "24".data || t == "2400".data || t == "24:00".data

/-- The regex `^\s*(\d{1,2})\s*$`, returning the captured number. -/
def hMatch (s : String) : Option Nat :=
  let t := trimList s.data
  if 1 ≤ t.length && t.length ≤ 2 then pytoNat? t else none

/-- `parse_start_hour` from `unscheduler/tui.py`.  `Except.error` models the
raised `ValueError` (including a parse failure of the fallback parser). -/
def parse_start_hour (s0 : String) : Except String Nat :=
  let s := pytrim s0
  if h24Match s then .error "24:00 invalid for start"
  else
    match hMatch s with
    | some h => if h ≤ 23 then .ok h else .error "hour out of range for start"
    | none =>
      match parse_dt_model s with
      | some hm => .ok hm.1
      | none => .error "unparseable token"

/-- `parse_end_hour` from `unscheduler/tui.py`. -/
def parse_end_hour (s0 : String) : Except String Nat :=
  let s := pytrim s0
  if h24Match s then .ok 24
  else
    match hMatch s with
    | some h =>
      if h == 24 then .ok 24
      else if h ≤ 23 then .ok h else .error "hour out of range for end"
    | none =>
      match parse_dt_model s with
      | some hm => .ok (if hm.2 == 0 then hm.1 else min (hm.1 + 1) 24)
      | none => .error "unparseable token"

/-! ### Commitment records

A commitment is the Python event dict of `_parse_content`.  The `"type"` key
together with the shape-specific keys (`"time"` for triggers, `"start"`,
`"end"`, `"spans_midnight"` for blocks) becomes the `kind` field; the block
field named `"end"` in the source is called `stop` here because `end` is a
reserved word.  The `"event"` key (the free-text description) is the `label`
field. -/

inductive EventKind where
  | block (start : Nat) (stop : Nat) (spans_midnight : Bool)
  | trigger (time : Nat)
deriving Repr, DecidableEq

structure Event where
  recurrence : String
  day_code : Char
  kind : EventKind
  label : String
  category : Option String
  color : String
deriving Repr, DecidableEq

def Event.isBlock (e : Event) : Bool :=
  match e.kind with
  | .block _ _ _ => true
  | .trigger _ => false

/-- The sort and comparison key `e["start"]` of a block (minutes). -/
def Event.startM (e : Event) : Nat :=
  match e.kind with
  | .block s _ _ => s
  | .trigger t => t

/-- The comparison key `e["end"]` of a block (minutes). -/
def Event.stopM (e : Event) : Nat :=
  match e.kind with
  | .block _ e2 _ => e2
  | .trigger t => t

/-! ### The line parser (`_parse_content` in `unscheduler/parser.py`) -/

structure ParseState where
  commitments : List Event
  categories_found : List String
  parsing_errors_found : Bool
  non_work_categories : List String
  color_assigner : ColorAssigner
  current_category : Option String
  in_non_work_section : Bool
deriving Repr

def initState : ParseState :=
  ⟨[], [], false, [], ColorAssigner.mk0 COLOR_PALETTE, none, false⟩

/-- The day-code token characters that survive the
`if day_char not in DAY_CODES: continue` filter (the token is upper-cased
first). -/
def dayCharsOf (words : List String) : List Char :=
  ((words.getD 1 "").data.map Char.toUpper).filter
    (fun c => DAY_CODES.toList.contains c)

/-- Step A of the commitment parser: the regex `\s@(\S+)$` matched against a
stripped line picks out a final whitespace-separated word that starts with
`@` and has at least one further character; the rest of the line is re-split
into words.  Returns the inline category (without the `@`) and the remaining
words. -/
def extractInline (line : String) : Option String × List String :=
  let ws := pysplit line
  match ws.getLast? with
  | some w =>
    if 2 ≤ ws.length && headIs '@' w && 2 ≤ w.data.length
    then (some ⟨w.data.drop 1⟩, ws.dropLast)
    else (none, ws)
  | none => (none, ws)

/-- One iteration of the day-character loop for a trigger line. -/
def triggerStep (recurrence : String) (t : Nat) (label : String)
    (inline? : Option String) (st : ParseState) (day_char : Char) : ParseState :=
  if isTruthy inline? then
    let cc := st.color_assigner.get_color (inline?.getD "")
    { st with color_assigner := cc.2,
              commitments := st.commitments ++
                [⟨recurrence, day_char, .trigger t, label, inline?, cc.1⟩] }
  else
    { st with commitments := st.commitments ++
                [⟨recurrence, day_char, .trigger t, label, inline?,
                  DEFAULT_TRIGGER_COLOR⟩] }

/-- One iteration of the day-character loop for a block line. -/
def blockStep (recurrence : String) (s e : Nat) (label : String)
    (event_category : Option String) (st : ParseState) (day_char : Char) :
    ParseState :=
  let st1 :=
    if isTruthy event_category
    then { st with categories_found :=
                     addCat st.categories_found (event_category.getD "") }
    else st
  if isTruthy event_category then
    let cc := st1.color_assigner.get_color (event_category.getD "")
    { st1 with color_assigner := cc.2,
               commitments := st1.commitments ++
                 [⟨recurrence, day_char, .block s e (decide (e < s)), label,
                   event_category, cc.1⟩] }
  else
    { st1 with commitments := st1.commitments ++
                 [⟨recurrence, day_char, .block s e (decide (e < s)), label,
                   event_category, "gray"⟩] }

/-- Step C, the shape discriminator: the line is a trigger when there is no
fourth word or the fourth word does not parse as a time (the
`try: parse(words[3])` probe). -/
def isTriggerShape (words : List String) : Bool :=
  match words.get? 3 with
  | some w => (parse_dt_model w).isNone
  | none => true

/-- The `categories_found.add(inline_category)` update performed as soon as
an inline category is matched (before the word-count check). -/
def inlineAdd (st0 : ParseState) (inline? : Option String) : ParseState :=
  match inline? with
  | some c => { st0 with categories_found := addCat st0.categories_found c }
  | none => st0

/-- The body of the per-line `try` block of `_parse_content` (a commitment
line).  Parse failures raised inside it are caught by the handler, which
records the error flag; that catch is part of this function, so it never
aborts. -/
def parseCommitmentLine (st0 : ParseState) (line : String) : ParseState :=
  let iw := extractInline line
  let inline? := iw.1
  let words := iw.2
  let st := inlineAdd st0 inline?
  if words.length < 3 then st
  else
    let is_trigger : Bool := isTriggerShape words
    let recurrence := words.getD 0 ""
    let dayChars := dayCharsOf words
    if is_trigger then
      match parseTime? (words.getD 2 "") with
      | some t =>
        dayChars.foldl
          (triggerStep recurrence t (joinWords ' ' (words.drop 3)) inline?) st
      | none =>
        if dayChars.isEmpty then st
        else { st with parsing_errors_found := true }
    else
      match parseTime? (words.getD 2 ""), parseTime? (words.getD 3 "") with
      | some s, some e =>
        dayChars.foldl
          (blockStep recurrence s e (joinWords ' ' (words.drop 4))
            (pyOr inline? st.current_category)) st
      | _, _ =>
        if dayChars.isEmpty then st
        else { st with parsing_errors_found := true }

/-- Processing of one raw line of the schedule file.  The `Except.error`
result models the only uncaught exception of the loop body: the
`key, value = line.split('=', 1)` unpacking of a line inside the non-work
section that contains no `=` (it sits outside the per-line `try`). -/
def processLine (st : ParseState) (rawLine : String) : Except String ParseState :=
  let line := pytrim rawLine
  if line.data.isEmpty || headIs '#' line then .ok st
  else if lowerList (pytrim line).data == "[non-work-definition]".data then
    .ok { st with in_non_work_section := true }
  else if headIs '@' line then
    let parts := pysplit1 ⟨line.data.drop 1⟩ ':'
    let category_name := pytrim (parts.getD 0 "")
    let st1 := { st with in_non_work_section := false,
                         current_category := some category_name,
                         categories_found :=
                           addCat st.categories_found category_name }
    if 2 ≤ parts.length then
      .ok { st1 with color_assigner :=
              (st1.color_assigner.define_color category_name
                (pytrim (parts.getD 1 ""))) }
    else .ok st1
  else if st.in_non_work_section then
    let parts := pysplit1 line '='
    if parts.length = 2 then
      let key := parts.getD 0 ""
      let value := parts.getD 1 ""
      if pytrim key == "non_work_categories"
      then .ok { st with non_work_categories :=
                   (splitChar ',' value.data).map (fun g => pytrim ⟨g⟩) }
      else .ok st
    else .error ("not enough values to unpack: " ++ line)
  else
    .ok (parseCommitmentLine st line)

def parseLines : List String → ParseState → Except String ParseState
  | [], st => .ok st
  | l :: ls, st =>
    match processLine st l with
    | .ok st1 => parseLines ls st1
    | .error e => .error e

/-- `_parse_content`: parse every input line and return the accumulated
commitment list, category set, non-work list and error flag.  The
`Except.error` case is the uncaught exception described at `processLine`. -/
def parse_content (lines : List String) :
    Except String (List Event × List String × List String × Bool) :=
  (parseLines lines initState).map
    (fun st => (st.commitments, st.categories_found,
                st.non_work_categories, st.parsing_errors_found))

/-- `get_events_for_week` from `unscheduler/parser.py`. -/
def get_events_for_week (all_commitments : List Event) (week_type : String) :
    List Event :=
  all_commitments.filter
    (fun c => c.recurrence == "Weekly" || c.recurrence == "Week" ++ week_type)

/-! ### Statistics (`unscheduler/stats.py`)

Durations are computed exactly as in the source
(`(end - start).total_seconds() / 3600`, plus 24 when negative), over `ℚ`
instead of machine floats. -/

def blockDurationHours (start stop : Nat) : ℚ :=
  let d : ℚ := (((stop : ℚ) - (start : ℚ)) * 60) / 3600
  if d < 0 then d + 24 else d

/-- The loop body of `calculate_and_print_stats` accumulating
`category_hours`. -/
def statsStep (acc : List (String × ℚ)) (e : Event) : List (String × ℚ) :=
  match e.kind with
  | .block s e2 _ =>
    let duration := blockDurationHours s e2
    let multiplier : ℚ := if e.recurrence == "Weekly" then 2 else 1
    let biweekly_duration := duration * multiplier
    if isTruthy e.category then
      let cat := e.category.getD ""
      dictSet acc cat (((dictGet? acc cat).getD 0) + biweekly_duration)
    else acc
  | .trigger _ => acc

def categoryHoursBase (cs : List Event) : List (String × ℚ) :=
  cs.foldl statsStep []

/-- The final `category_hours` mapping of `calculate_and_print_stats`,
including the derived `Unscheduled` entry. -/
def calculate_stats (cs : List Event) : List (String × ℚ) :=
  let category_hours := categoryHoursBase cs
  let total_scheduled := (category_hours.map Prod.snd).sum
  let total_hours : ℚ := 2 * 7 * 24
  dictSet category_hours "Unscheduled" (total_hours - total_scheduled)

/-! ### Overlap detection (`check_for_overlaps` in `unscheduler/stats.py`)

Python `sorted` is a stable ascending sort by the given key; a stable sort by
a key has a unique result, so it is modelled by the stable
`List.insertionSort` with the key order on `e["start"]`.  The printed
warnings are modelled as a list of (day, previous event, current event)
findings. -/

def startLe (a b : Event) : Prop := a.startM ≤ b.startM

instance : DecidableRel startLe := fun a b => Nat.decLe a.startM b.startM

instance : IsTotal Event startLe := ⟨fun a b => Nat.le_total a.startM b.startM⟩

instance : IsTrans Event startLe := ⟨fun _ _ _ => Nat.le_trans⟩

def dailyBlocksSorted (cs : List Event) (d : Char) : List Event :=
  List.insertionSort startLe
    (cs.filter (fun e => e.isBlock && e.day_code == d))

def overlapsForDay (cs : List Event) (d : Char) : List (Char × Event × Event) :=
  let daily_blocks := dailyBlocksSorted cs d
  if daily_blocks.length < 2 then []
  else (daily_blocks.zip daily_blocks.tail).filterMap
    (fun pc => if pc.2.startM < pc.1.stopM then some (d, pc.1, pc.2) else none)

def check_for_overlaps (cs : List Event) : List (Char × Event × Event) :=
  (DAY_CODES.toList.map (overlapsForDay cs)).flatten

/-! ### Harness definitions used by the claim statements -/

/-- A sequence of `get_color` requests, returning the colors in order and the
final assigner state. -/
def runGetColors (s : ColorAssigner) : List String → List String × ColorAssigner
  | [] => ([], s)
  | c :: cs =>
    let r := s.get_color c
    let rr := runGetColors r.2 cs
    (r.1 :: rr.1, rr.2)

/-- Replace the recurrence of an event (used to state that overlap detection
ignores recurrence). -/
def Event.setRec (r : String) (e : Event) : Event :=
  { e with recurrence := r }

/-- The well-formedness facts that hold of every block record the parser
creates: the stored `spans_midnight` is the comparison `end < start` and both
times are valid times of day. -/
def BlockOk (e : Event) : Prop :=
  ∀ s e2 sm, e.kind = .block s e2 sm →
    sm = decide (e2 < s) ∧ s < 1440 ∧ e2 < 1440

/-! Concrete events for the overlap scenarios: a `09:00-10:00` block, an
overlapping `09:30-11:00` block, a touching `10:00-11:00` block, and the
same overlapping pair with recurrences `WeekA` and `WeekB`. -/

def ovA : Event := ⟨"Weekly", 'M', .block 540 600 false, "A", some "X", "gray"⟩

def ovB : Event := ⟨"Weekly", 'M', .block 570 660 false, "B", some "X", "gray"⟩

def ovC : Event := ⟨"Weekly", 'M', .block 600 660 false, "C", some "X", "gray"⟩

def ovA2 : Event := ⟨"WeekA", 'M', .block 540 600 false, "A", some "X", "gray"⟩

def ovB2 : Event := ⟨"WeekB", 'M', .block 570 660 false, "B", some "X", "gray"⟩

/-! ## Supporting lemmas -/

theorem dictGet?_dictSet_self {α : Type} (d : List (String × α)) (k : String)
    (v : α) : dictGet? (dictSet d k v) k = some v := by
  induction d with
  | nil => simp [dictSet, dictGet?]
  | cons kv rest ih =>
    by_cases h : kv.1 = k
    · simp [dictSet, dictGet?, h]
    · simp [dictSet, dictGet?, h, ih]

theorem dictGet?_dictSet_ne {α : Type} (d : List (String × α)) {k k2 : String}
    (v : α) (h : k2 ≠ k) : dictGet? (dictSet d k v) k2 = dictGet? d k2 := by
  induction d with
  | nil => simp [dictSet, dictGet?, Ne.symm h]
  | cons kv rest ih =>
    by_cases hk : kv.1 = k
    · simp [dictSet, dictGet?, hk, Ne.symm h]
    · simp [dictSet, dictGet?, hk, ih]

theorem parseHM_snd_le {core : List Char} {hm : Nat × Nat}
    (h : parseHM core = some hm) : hm.2 ≤ 59 := by
  unfold parseHM at h
  split at h
  · split at h
    · split at h
      · cases h; simp
      · cases h
    · cases h
  · split at h
    · split at h
      · rename_i hguard
        simp only [Bool.and_eq_true, decide_eq_true_eq] at hguard
        cases h
        exact hguard.2
      · cases h
    · cases h
  · cases h

theorem parse_dt_model_bounds {s : String} {hm : Nat × Nat}
    (h : parse_dt_model s = some hm) : hm.1 ≤ 23 ∧ hm.2 ≤ 59 := by
  unfold parse_dt_model at h
  dsimp only [] at h
  split at h
  · cases h
  · rename_i hm0 hHM
    have hsnd := parseHM_snd_le hHM
    split at h
    · split at h
      · rename_i hle
        cases h
        exact ⟨hle, hsnd⟩
      · cases h
    · split at h
      · rename_i hguard
        simp only [Bool.and_eq_true, decide_eq_true_eq] at hguard
        cases h
        refine ⟨?_, hsnd⟩
        split
        · split
          · omega
          · rename_i h12
            simp only [beq_iff_eq] at h12
            omega
        · split <;> omega
      · cases h

theorem parseTime?_lt_1440 {w : String} {t : Nat}
    (h : parseTime? w = some t) : t < 1440 := by
  unfold parseTime? at h
  cases hp : parse_dt_model w with
  | none => rw [hp] at h; cases h
  | some hm =>
    rw [hp] at h
    obtain ⟨h1, h2⟩ := parse_dt_model_bounds hp
    simp only [Option.map_some'] at h
    cases h
    omega

/-! ## Claim C6: week-variant filtering -/

/-- C6: for every commitment list and variant, `get_events_for_week` returns
exactly the commitments with recurrence `Weekly` together with those with
recurrence `Week` followed by the variant letter, preserving list order
(sublist); `WeekA` commitments never appear in the `B` selection and vice
versa, while `Weekly` commitments appear in both. -/
theorem selectWeek_spec :
    (∀ (cs : List Event) (v : String) (c : Event),
       c ∈ get_events_for_week cs v ↔
         c ∈ cs ∧ (c.recurrence = "Weekly" ∨ c.recurrence = "Week" ++ v)) ∧
    (∀ (cs : List Event) (v : String), (get_events_for_week cs v).Sublist cs) ∧
    (∀ (cs : List Event) (c : Event),
       c ∈ get_events_for_week cs "B" → c.recurrence ≠ "WeekA") ∧
    (∀ (cs : List Event) (c : Event),
       c ∈ get_events_for_week cs "A" → c.recurrence ≠ "WeekB") ∧
    (∀ (cs : List Event) (c : Event), c ∈ cs → c.recurrence = "Weekly" →
       c ∈ get_events_for_week cs "A" ∧ c ∈ get_events_for_week cs "B") := by
  have hmem : ∀ (cs : List Event) (v : String) (c : Event),
      c ∈ get_events_for_week cs v ↔
        c ∈ cs ∧ (c.recurrence = "Weekly" ∨ c.recurrence = "Week" ++ v) := by
    intro cs v c
    unfold get_events_for_week
    rw [List.mem_filter]
    simp only [Bool.or_eq_true, beq_iff_eq]
  refine ⟨hmem, ?_, ?_, ?_, ?_⟩
  · intro cs v
    exact List.filter_sublist _
  · intro cs c hc hEq
    rcases (hmem cs "B" c).mp hc with ⟨-, h | h⟩
    · exact absurd (hEq ▸ h) (by decide)
    · exact absurd (hEq ▸ h) (by decide)
  · intro cs c hc hEq
    rcases (hmem cs "A" c).mp hc with ⟨-, h | h⟩
    · exact absurd (hEq ▸ h) (by decide)
    · exact absurd (hEq ▸ h) (by decide)
  · intro cs c hc hW
    constructor
    · exact (hmem cs "A" c).mpr ⟨hc, Or.inl hW⟩
    · exact (hmem cs "B" c).mpr ⟨hc, Or.inl hW⟩

theorem selectWeek_spec_witness :
    (⟨"Weekly", 'M', .trigger 0, "x", none, "black"⟩ : Event) ∈
      get_events_for_week [⟨"Weekly", 'M', .trigger 0, "x", none, "black"⟩] "A" ∧
    (⟨"Weekly", 'M', .trigger 0, "x", none, "black"⟩ : Event) ∈
      get_events_for_week [⟨"Weekly", 'M', .trigger 0, "x", none, "black"⟩] "B" :=
  selectWeek_spec.2.2.2.2 [⟨"Weekly", 'M', .trigger 0, "x", none, "black"⟩]
    ⟨"Weekly", 'M', .trigger 0, "x", none, "black"⟩ (by decide) rfl

/-! ## Claim C2: boundary hour grammar -/

/-- C2 counterexample: the token `0` is accepted by `parse_end_hour` and
resolves to hour 0, which is not in the claimed end-hour range `[1,24]`;
it is not rejected with an error. -/
theorem parse_end_hour_zero_counterexample :
    parse_end_hour "0" = .ok 0 ∧ ¬ (1 ≤ (0 : Nat)) :=
  ⟨by decide, by decide⟩

/-- C2 amended: every token accepted by `parse_start_hour` resolves to an
hour in `[0,23]` (fractional minutes truncated downward) and the literal
`24`/`24:00` is rejected; every token accepted by `parse_end_hour` resolves
to an hour in `[0,24]` — not `[1,24]`, since the literal `0` is accepted and
returns 0 — with fractional minutes rounded upward capped at 24, and the
literal `24`/`24:00` is accepted. -/
theorem boundary_hour_grammar :
    (∀ (s : String) (h : Nat), parse_start_hour s = .ok h → h ≤ 23) ∧
    (parse_start_hour "24" = .error "24:00 invalid for start" ∧
     parse_start_hour "24:00" = .error "24:00 invalid for start") ∧
    (∀ (s : String) (h : Nat), parse_end_hour s = .ok h → h ≤ 24) ∧
    (parse_end_hour "24" = .ok 24 ∧ parse_end_hour "24:00" = .ok 24 ∧
     parse_end_hour "0" = .ok 0) ∧
    (parse_start_hour "7:30" = .ok 7 ∧ parse_end_hour "7:30" = .ok 8) := by
  refine ⟨?_, ⟨by decide, by decide⟩, ?_, ⟨by decide, by decide, by decide⟩,
    ⟨by decide, by decide⟩⟩
  · intro s h hok
    unfold parse_start_hour at hok
    dsimp only [] at hok
    split at hok
    · cases hok
    · split at hok
      · split at hok
        · cases hok; assumption
        · cases hok
      · split at hok
        · rename_i hm hdt
          cases hok
          exact (parse_dt_model_bounds hdt).1
        · cases hok
  · intro s h hok
    unfold parse_end_hour at hok
    dsimp only [] at hok
    split at hok
    · cases hok; omega
    · split at hok
      · split at hok
        · cases hok; omega
        · split at hok
          · cases hok; omega
          · cases hok
      · split at hok
        · rename_i hm hdt
          cases hok
          have := (parse_dt_model_bounds hdt).1
          split
          · omega
          · exact min_le_right _ _
        · cases hok

theorem boundary_hour_grammar_witness :
    (7 : Nat) ≤ 23 ∧ (8 : Nat) ≤ 24 :=
  ⟨boundary_hour_grammar.1 "7:30" 7 (by decide),
   boundary_hour_grammar.2.2.1 "7:30" 8 (by decide)⟩

/-! ## State-preservation lemmas for the per-line parser -/

theorem inlineAdd_misc (st0 : ParseState) (o : Option String) :
    (inlineAdd st0 o).parsing_errors_found = st0.parsing_errors_found ∧
    (inlineAdd st0 o).in_non_work_section = st0.in_non_work_section ∧
    (inlineAdd st0 o).current_category = st0.current_category ∧
    (inlineAdd st0 o).non_work_categories = st0.non_work_categories ∧
    (inlineAdd st0 o).color_assigner = st0.color_assigner ∧
    (inlineAdd st0 o).commitments = st0.commitments := by
  cases o <;> exact ⟨rfl, rfl, rfl, rfl, rfl, rfl⟩

theorem triggerStep_misc (r : String) (t : Nat) (lbl : String)
    (inl : Option String) (st : ParseState) (c : Char) :
    (triggerStep r t lbl inl st c).parsing_errors_found = st.parsing_errors_found ∧
    (triggerStep r t lbl inl st c).in_non_work_section = st.in_non_work_section ∧
    (triggerStep r t lbl inl st c).current_category = st.current_category ∧
    (triggerStep r t lbl inl st c).non_work_categories = st.non_work_categories := by
  unfold triggerStep
  split_ifs <;> exact ⟨rfl, rfl, rfl, rfl⟩

theorem blockStep_misc (r : String) (s e : Nat) (lbl : String)
    (ec : Option String) (st : ParseState) (c : Char) :
    (blockStep r s e lbl ec st c).parsing_errors_found = st.parsing_errors_found ∧
    (blockStep r s e lbl ec st c).in_non_work_section = st.in_non_work_section ∧
    (blockStep r s e lbl ec st c).current_category = st.current_category ∧
    (blockStep r s e lbl ec st c).non_work_categories = st.non_work_categories := by
  unfold blockStep
  dsimp only []
  split_ifs <;> exact ⟨rfl, rfl, rfl, rfl⟩

theorem foldl_triggerStep_misc (r : String) (t : Nat) (lbl : String)
    (inl : Option String) (chars : List Char) :
    ∀ st : ParseState,
      (chars.foldl (triggerStep r t lbl inl) st).parsing_errors_found =
        st.parsing_errors_found ∧
      (chars.foldl (triggerStep r t lbl inl) st).in_non_work_section =
        st.in_non_work_section ∧
      (chars.foldl (triggerStep r t lbl inl) st).current_category =
        st.current_category ∧
      (chars.foldl (triggerStep r t lbl inl) st).non_work_categories =
        st.non_work_categories := by
  induction chars with
  | nil => intro st; exact ⟨rfl, rfl, rfl, rfl⟩
  | cons c cs ih =>
    intro st
    obtain ⟨h1, h2, h3, h4⟩ := ih (triggerStep r t lbl inl st c)
    obtain ⟨g1, g2, g3, g4⟩ := triggerStep_misc r t lbl inl st c
    exact ⟨h1.trans g1, h2.trans g2, h3.trans g3, h4.trans g4⟩

theorem foldl_blockStep_misc (r : String) (s e : Nat) (lbl : String)
    (ec : Option String) (chars : List Char) :
    ∀ st : ParseState,
      (chars.foldl (blockStep r s e lbl ec) st).parsing_errors_found =
        st.parsing_errors_found ∧
      (chars.foldl (blockStep r s e lbl ec) st).in_non_work_section =
        st.in_non_work_section ∧
      (chars.foldl (blockStep r s e lbl ec) st).current_category =
        st.current_category ∧
      (chars.foldl (blockStep r s e lbl ec) st).non_work_categories =
        st.non_work_categories := by
  induction chars with
  | nil => intro st; exact ⟨rfl, rfl, rfl, rfl⟩
  | cons c cs ih =>
    intro st
    obtain ⟨h1, h2, h3, h4⟩ := ih (blockStep r s e lbl ec st c)
    obtain ⟨g1, g2, g3, g4⟩ := blockStep_misc r s e lbl ec st c
    exact ⟨h1.trans g1, h2.trans g2, h3.trans g3, h4.trans g4⟩

theorem parseCommitmentLine_misc (st0 : ParseState) (line : String) :
    (parseCommitmentLine st0 line).in_non_work_section = st0.in_non_work_section ∧
    (parseCommitmentLine st0 line).current_category = st0.current_category ∧
    (parseCommitmentLine st0 line).non_work_categories = st0.non_work_categories := by
  obtain ⟨-, f2, f3, f4, -, -⟩ := inlineAdd_misc st0 (extractInline line).1
  unfold parseCommitmentLine
  dsimp only []
  split
  · exact ⟨f2, f3, f4⟩
  · split
    · split
      · rename_i t ht
        obtain ⟨-, h2, h3, h4⟩ := foldl_triggerStep_misc _ t _ _
          (dayCharsOf (extractInline line).2) (inlineAdd st0 (extractInline line).1)
        exact ⟨h2.trans f2, h3.trans f3, h4.trans f4⟩
      · split
        · exact ⟨f2, f3, f4⟩
        · exact ⟨f2, f3, f4⟩
    · split
      · rename_i s e hs he
        obtain ⟨-, h2, h3, h4⟩ := foldl_blockStep_misc _ s e _ _
          (dayCharsOf (extractInline line).2) (inlineAdd st0 (extractInline line).1)
        exact ⟨h2.trans f2, h3.trans f3, h4.trans f4⟩
      · split
        · exact ⟨f2, f3, f4⟩
        · exact ⟨f2, f3, f4⟩

theorem trimList_idem (l : List Char) : trimList (trimList l) = trimList l := by
  have heq : ∀ x : List Char, trimList x =
      List.rdropWhile isWS (List.dropWhile isWS x) := by
    intro x
    simp [trimList, List.rdropWhile]
  rw [heq, heq]
  have hy : List.dropWhile isWS (List.dropWhile isWS l) = List.dropWhile isWS l :=
    List.dropWhile_idempotent isWS l
  have hA : List.dropWhile isWS
      (List.rdropWhile isWS (List.dropWhile isWS l)) =
      List.rdropWhile isWS (List.dropWhile isWS l) := by
    rcases hr : List.rdropWhile isWS (List.dropWhile isWS l) with _ | ⟨a, rest⟩
    · simp
    · have hpre : List.rdropWhile isWS (List.dropWhile isWS l) <+:
          List.dropWhile isWS l := List.rdropWhile_prefix _ _
      rw [hr] at hpre
      obtain ⟨tl, htl⟩ := hpre
      have hy2 : List.dropWhile isWS l = a :: (rest ++ tl) := by
        rw [← htl]; simp
      have hna : ¬ (isWS a = true) := by
        intro hc
        have h3 := hy
        rw [hy2, List.dropWhile_cons_of_pos hc] at h3
        have h4 := congrArg List.length h3
        have h5 := (List.dropWhile_sublist (l := rest ++ tl) (p := isWS)).length_le
        rw [List.length_cons] at h4
        omega
      rw [List.dropWhile_cons_of_neg hna]
  rw [hA, List.rdropWhile_idempotent]

theorem pytrim_idem (s : String) : pytrim (pytrim s) = pytrim s :=
  congrArg String.mk (trimList_idem s.data)

/-! ## Claim C1: per-line error isolation and the non-work abort -/

/-- C1 counterexample: a two line input whose second line sits inside the
non-work section and contains no `=` makes the parse pass abort with an
uncaught unpacking error instead of running to completion. -/
theorem parse_abort_counterexample :
    parse_content ["[non-work-definition]", "x"] =
      .error "not enough values to unpack: x" := by decide

theorem isOk_ok {ε α : Type} (x : α) :
    (Except.ok x : Except ε α).isOk = true := rfl

theorem isOk_error {ε α : Type} (e : ε) :
    (Except.error e : Except ε α).isOk = false := rfl

theorem processLine_ok_of_not_nonwork (st : ParseState) (line : String)
    (h : st.in_non_work_section = false) : (processLine st line).isOk = true := by
  unfold processLine
  dsimp only []
  by_cases h1 : ((pytrim line).data.isEmpty || headIs '#' (pytrim line)) = true
  · rw [if_pos h1]; rfl
  · rw [if_neg h1]
    by_cases h2 : (lowerList (pytrim (pytrim line)).data ==
        "[non-work-definition]".data) = true
    · rw [if_pos h2]; rfl
    · rw [if_neg h2]
      by_cases h3 : headIs '@' (pytrim line) = true
      · rw [if_pos h3]
        by_cases h4 : 2 ≤ (pysplit1 ⟨(pytrim line).data.drop 1⟩ ':').length
        · rw [if_pos h4]; rfl
        · rw [if_neg h4]; rfl
      · rw [if_neg h3]
        have h5 : ¬ (st.in_non_work_section = true) := by rw [h]; simp
        rw [if_neg h5]
        rfl

theorem processLine_error_characterization (st : ParseState) (line : String)
    (h : (processLine st line).isOk = false) :
    st.in_non_work_section = true ∧
    (splitChar '=' (pytrim line).data).length < 2 := by
  unfold processLine at h
  dsimp only [] at h
  by_cases h1 : ((pytrim line).data.isEmpty || headIs '#' (pytrim line)) = true
  · rw [if_pos h1, isOk_ok] at h; cases h
  rw [if_neg h1] at h
  by_cases h2 : (lowerList (pytrim (pytrim line)).data ==
      "[non-work-definition]".data) = true
  · rw [if_pos h2, isOk_ok] at h; cases h
  rw [if_neg h2] at h
  by_cases h3 : headIs '@' (pytrim line) = true
  · rw [if_pos h3] at h
    by_cases h4 : 2 ≤ (pysplit1 ⟨(pytrim line).data.drop 1⟩ ':').length
    · rw [if_pos h4, isOk_ok] at h; cases h
    · rw [if_neg h4, isOk_ok] at h; cases h
  rw [if_neg h3] at h
  by_cases h5 : st.in_non_work_section = true
  · rw [if_pos h5] at h
    refine ⟨h5, ?_⟩
    by_cases h6 : (pysplit1 (pytrim line) '=').length = 2
    · rw [if_pos h6] at h
      by_cases h7 : (pytrim ((pysplit1 (pytrim line) '=').getD 0 "") ==
          "non_work_categories") = true
      · rw [if_pos h7, isOk_ok] at h; cases h
      · rw [if_neg h7, isOk_ok] at h; cases h
    · rcases hs : splitChar '=' (pytrim line).data with _ | ⟨x, _ | ⟨y, rest⟩⟩
      · simp
      · simp
      · exfalso
        apply h6
        unfold pysplit1
        rw [hs]
        rfl
  · rw [if_neg h5, isOk_ok] at h; cases h

theorem processLine_ok_flag (st st1 : ParseState) (line : String)
    (hm : lowerList (pytrim line).data ≠ "[non-work-definition]".data)
    (hf : st.in_non_work_section = false)
    (h : processLine st line = .ok st1) :
    st1.in_non_work_section = false := by
  unfold processLine at h
  dsimp only [] at h
  by_cases h1 : ((pytrim line).data.isEmpty || headIs '#' (pytrim line)) = true
  · rw [if_pos h1] at h; cases h; exact hf
  rw [if_neg h1] at h
  by_cases h2 : (lowerList (pytrim (pytrim line)).data ==
      "[non-work-definition]".data) = true
  · exfalso
    apply hm
    have h2e := eq_of_beq h2
    rw [pytrim_idem] at h2e
    exact h2e
  rw [if_neg h2] at h
  by_cases h3 : headIs '@' (pytrim line) = true
  · rw [if_pos h3] at h
    by_cases h4 : 2 ≤ (pysplit1 ⟨(pytrim line).data.drop 1⟩ ':').length
    · rw [if_pos h4] at h; cases h; rfl
    · rw [if_neg h4] at h; cases h; rfl
  rw [if_neg h3] at h
  have h5 : ¬ (st.in_non_work_section = true) := by rw [hf]; simp
  rw [if_neg h5] at h
  cases h
  exact ((parseCommitmentLine_misc st (pytrim line)).1).trans hf

theorem parseLines_ok_of_no_marker (lines : List String) :
    ∀ st : ParseState, st.in_non_work_section = false →
    (∀ l ∈ lines, lowerList (pytrim l).data ≠ "[non-work-definition]".data) →
    (parseLines lines st).isOk = true := by
  induction lines with
  | nil => intro st _ _; rfl
  | cons l ls ih =>
    intro st hf hml
    have hok := processLine_ok_of_not_nonwork st l hf
    unfold parseLines
    cases hp : processLine st l with
    | error e => rw [hp] at hok; cases hok
    | ok st1 =>
      have hf1 := processLine_ok_flag st st1 l (hml l (by simp)) hf hp
      exact ih st1 hf1 (fun x hx => hml x (by simp [hx]))

/-- C1 amended: per-line error isolation holds everywhere except in the
non-work section: (1) whenever the non-work-section flag is clear, processing
a line never aborts (commitment-line parse failures are caught and only
recorded in the error flag); (2) a parse pass can abort only at a line
reached with the non-work-section flag set that contains no `=` character
(the uncaught `key, value` unpacking); (3) in particular, a parse pass over
input that never contains the `[non-work-definition]` marker always runs to
completion and returns the accumulated results. -/
theorem parse_pass_abort_characterization :
    (∀ (st : ParseState) (line : String), st.in_non_work_section = false →
       (processLine st line).isOk = true) ∧
    (∀ (st : ParseState) (line : String), (processLine st line).isOk = false →
       st.in_non_work_section = true ∧
       (splitChar '=' (pytrim line).data).length < 2) ∧
    (∀ lines : List String,
       (∀ l ∈ lines, lowerList (pytrim l).data ≠ "[non-work-definition]".data) →
       (parse_content lines).isOk = true) := by
  refine ⟨processLine_ok_of_not_nonwork, processLine_error_characterization, ?_⟩
  intro lines hml
  have h := parseLines_ok_of_no_marker lines initState rfl hml
  unfold parse_content
  cases hp : parseLines lines initState with
  | error e => rw [hp] at h; cases h
  | ok st => rfl

theorem parse_pass_abort_characterization_witness :
    (parse_content ["Weekly M notatime alsonotatime x", "@Work",
        "Weekly M 9a 10a Standup"]).isOk = true :=
  parse_pass_abort_characterization.2.2
    ["Weekly M notatime alsonotatime x", "@Work", "Weekly M 9a 10a Standup"]
    (by decide)

/-! ## Claim C4: category-hours aggregation -/

theorem blockDuration_mod (s e2 : Nat) (hs : s < 1440) (he : e2 < 1440) :
    blockDurationHours s e2 = ((((e2 : ℤ) - (s : ℤ)) % 1440 : ℤ) : ℚ) / 60 ∧
    0 ≤ blockDurationHours s e2 ∧ blockDurationHours s e2 < 24 := by
  unfold blockDurationHours
  dsimp only []
  have hse : (s : ℚ) ≤ 1439 := by exact_mod_cast Nat.lt_succ_iff.mp hs
  have hee : (e2 : ℚ) ≤ 1439 := by exact_mod_cast Nat.lt_succ_iff.mp he
  have hs0 : (0 : ℚ) ≤ (s : ℚ) := by positivity
  have he0 : (0 : ℚ) ≤ (e2 : ℚ) := by positivity
  have hd : (((e2 : ℚ) - s) * 60) / 3600 = ((e2 : ℚ) - s) / 60 := by ring
  by_cases hlt : e2 < s
  · have hltq : (e2 : ℚ) < s := by exact_mod_cast hlt
    have hneg : (((e2 : ℚ) - s) * 60) / 3600 < 0 := by
      rw [hd]
      apply div_neg_of_neg_of_pos
      · linarith
      · norm_num
    rw [if_pos hneg]
    have hmod : ((e2 : ℤ) - s) % 1440 = (e2 : ℤ) - s + 1440 := by omega
    refine ⟨?_, ?_, ?_⟩
    · rw [hmod, hd]
      push_cast
      ring
    · rw [hd]
      have : (-1440 : ℚ) ≤ (e2 : ℚ) - s := by linarith
      linarith [div_le_div_of_nonneg_right (c := (60 : ℚ))
        (show (-1440 : ℚ) ≤ (e2 : ℚ) - s by linarith) (by norm_num)]
    · rw [hd]
      have : ((e2 : ℚ) - s) / 60 < 0 := by rw [← hd]; exact hneg
      linarith
  · have hgeq : (s : ℚ) ≤ e2 := by exact_mod_cast Nat.le_of_not_lt hlt
    have hnn : (0 : ℚ) ≤ (((e2 : ℚ) - s) * 60) / 3600 := by
      rw [hd]
      apply div_nonneg
      · linarith
      · norm_num
    rw [if_neg (not_lt.mpr hnn)]
    have hmod : ((e2 : ℤ) - s) % 1440 = (e2 : ℤ) - s := by omega
    refine ⟨?_, hnn, ?_⟩
    · rw [hmod, hd]
      push_cast
      ring
    · rw [hd]
      have hub : ((e2 : ℚ) - s) ≤ 1439 := by linarith
      have := div_le_div_of_nonneg_right (c := (60 : ℚ)) hub (by norm_num)
      calc ((e2 : ℚ) - s) / 60 ≤ 1439 / 60 := this
        _ < 24 := by norm_num

/-- C4: each Block contributes `(end - start) mod 24h` hours (non-negative,
below 24, even across midnight), times 2 exactly when the recurrence string
is `Weekly` and times 1 otherwise; blocks without a category contribute
nothing to the mapping; the derived `Unscheduled` entry is 336 minus the sum
of the accumulated category hours; and an empty commitment list yields
exactly the mapping `{Unscheduled: 336}`. -/
theorem category_hours_spec :
    (calculate_stats [] = [("Unscheduled", 336)]) ∧
    (∀ cs : List Event, dictGet? (calculate_stats cs) "Unscheduled" =
        some (336 - ((categoryHoursBase cs).map Prod.snd).sum)) ∧
    (∀ s e2 : Nat, s < 1440 → e2 < 1440 →
        blockDurationHours s e2 = ((((e2 : ℤ) - (s : ℤ)) % 1440 : ℤ) : ℚ) / 60 ∧
        0 ≤ blockDurationHours s e2 ∧ blockDurationHours s e2 < 24) ∧
    (∀ (acc : List (String × ℚ)) (e : Event) (s e2 : Nat) (sm : Bool)
       (cat : String),
        e.kind = .block s e2 sm → e.category = some cat → cat ≠ "" →
        statsStep acc e = dictSet acc cat ((dictGet? acc cat).getD 0 +
          blockDurationHours s e2 *
            (if e.recurrence = "Weekly" then 2 else 1))) ∧
    (∀ (acc : List (String × ℚ)) (e : Event), isTruthy e.category = false →
        statsStep acc e = acc) ∧
    (∀ (cs : List Event) (e : Event),
        categoryHoursBase (cs ++ [e]) = statsStep (categoryHoursBase cs) e) := by
  refine ⟨?_, ?_, blockDuration_mod, ?_, ?_, ?_⟩
  · show dictSet (categoryHoursBase []) "Unscheduled" _ = _
    norm_num [categoryHoursBase, dictSet]
  · intro cs
    show dictGet? (dictSet (categoryHoursBase cs) "Unscheduled" _) _ = _
    rw [dictGet?_dictSet_self]
    norm_num
  · intro acc e s e2 sm cat hk hcat hne
    have hdata : cat.data.isEmpty = false := by
      rcases cat with ⟨l⟩
      cases l with
      | nil => exact absurd rfl hne
      | cons a t => rfl
    unfold statsStep
    rw [hk]
    dsimp only []
    rw [hcat]
    have htr : isTruthy (some cat) = true := by
      simp [isTruthy, hdata]
    rw [if_pos htr]
    dsimp only [Option.getD]
    congr 1
    by_cases hw : e.recurrence = "Weekly"
    · simp [hw]
    · have hbeq : (e.recurrence == "Weekly") = false := by
        simp [hw]
      simp [hw, hbeq]
  · intro acc e hft
    unfold statsStep
    cases hk : e.kind with
    | block s e2 sm =>
      dsimp only []
      rw [hft]
      simp
    | trigger t => rfl
  · intro cs e
    simp [categoryHoursBase, List.foldl_append]

theorem category_hours_spec_witness :
    0 ≤ blockDurationHours 1260 120 ∧ blockDurationHours 1260 120 < 24 :=
  ⟨(category_hours_spec.2.2.1 1260 120 (by decide) (by decide)).2.1,
   (category_hours_spec.2.2.1 1260 120 (by decide) (by decide)).2.2⟩

/-! ## Claim C8: color assignment -/

theorem get_color_manual (s : ColorAssigner) (cat col : String)
    (h : dictGet? s.manual_color_map cat = some col) :
    s.get_color cat = (col, s) := by
  unfold ColorAssigner.get_color
  rw [h]

theorem get_color_manual_map (s : ColorAssigner) (c : String) :
    (s.get_color c).2.manual_color_map = s.manual_color_map := by
  unfold ColorAssigner.get_color
  dsimp only []
  split
  · rfl
  · split
    · rfl
    · rfl

theorem runGetColors_manual_map (cs : List String) :
    ∀ s : ColorAssigner,
      (runGetColors s cs).2.manual_color_map = s.manual_color_map := by
  induction cs with
  | nil => intro s; rfl
  | cons c rest ih =>
    intro s
    show (runGetColors (s.get_color c).2 rest).2.manual_color_map = _
    rw [ih]
    exact get_color_manual_map s c

/-- The explicit value of a fresh `get_color` call (the category is in
neither map). -/
theorem get_color_fresh (s : ColorAssigner) (c : String)
    (hm : dictGet? s.manual_color_map c = none)
    (ha : dictGet? s.auto_color_map c = none) :
    s.get_color c =
      (s.palette.getD (s.next_color_index % s.palette.length) "",
       { palette := s.palette,
         manual_color_map := s.manual_color_map,
         auto_color_map := dictSet s.auto_color_map c
           (s.palette.getD (s.next_color_index % s.palette.length) ""),
         next_color_index := s.next_color_index + 1,
         palette_cycled := s.palette_cycled ||
           (!s.palette_cycled && decide (s.palette.length ≤ s.next_color_index)),
         warnings := s.warnings +
           (if (!s.palette_cycled &&
                decide (s.palette.length ≤ s.next_color_index)) = true
            then 1 else 0) }) := by
  unfold ColorAssigner.get_color
  rw [hm, ha]

theorem get_color_idem (s : ColorAssigner) (c : String) :
    (s.get_color c).2.get_color c = ((s.get_color c).1, (s.get_color c).2) := by
  rcases hm : dictGet? s.manual_color_map c with _ | col
  · rcases ha : dictGet? s.auto_color_map c with _ | col2
    · rw [get_color_fresh s c hm ha]
      dsimp only []
      unfold ColorAssigner.get_color
      dsimp only []
      rw [hm, dictGet?_dictSet_self]
    · have h1 : s.get_color c = (col2, s) := by
        unfold ColorAssigner.get_color
        rw [hm, ha]
      rw [h1]
      exact h1
  · have h1 : s.get_color c = (col, s) := by
      unfold ColorAssigner.get_color
      rw [hm]
    rw [h1]
    exact h1

theorem runGetColors_fresh (cats : List String) :
    ∀ s : ColorAssigner,
      s.palette.length = 10 →
      s.manual_color_map = [] →
      (∀ c ∈ cats, dictGet? s.auto_color_map c = none) →
      cats.Nodup →
      (runGetColors s cats).1 = (List.range cats.length).map
        (fun i => s.palette.getD ((s.next_color_index + i) % 10) "") ∧
      (runGetColors s cats).2.warnings = s.warnings +
        (if s.palette_cycled = false ∧ 1 ≤ cats.length ∧
            11 ≤ s.next_color_index + cats.length then 1 else 0) ∧
      (runGetColors s cats).2.palette = s.palette ∧
      (runGetColors s cats).2.next_color_index =
        s.next_color_index + cats.length ∧
      (runGetColors s cats).2.palette_cycled =
        (s.palette_cycled || decide (1 ≤ cats.length ∧
          11 ≤ s.next_color_index + cats.length)) := by
  induction cats with
  | nil =>
    intro s h10 hman hfresh hnd
    refine ⟨rfl, by simp [runGetColors], rfl, rfl, by simp [runGetColors]⟩
  | cons c rest ih =>
    intro s h10 hman hfresh hnd
    have hm : dictGet? s.manual_color_map c = none := by rw [hman]; rfl
    have ha : dictGet? s.auto_color_map c = none := hfresh c (by simp)
    have h1 := get_color_fresh s c hm ha
    have hfresh2 : ∀ c2 ∈ rest,
        dictGet? (dictSet s.auto_color_map c
          (s.palette.getD (s.next_color_index % s.palette.length) "")) c2 =
          none := by
      intro c2 hc2
      have hne : c2 ≠ c := by
        rintro rfl
        exact (List.nodup_cons.mp hnd).1 hc2
      rw [dictGet?_dictSet_ne _ _ hne]
      exact hfresh c2 (by simp [hc2])
    obtain ⟨ih1, ih2, ih3, ih4, ih5⟩ := ih (s.get_color c).2
      (by rw [h1]; exact h10)
      (by rw [h1]; exact hman)
      (by rw [h1]; exact hfresh2)
      (List.nodup_cons.mp hnd).2
    have hfst : (s.get_color c).1 =
        s.palette.getD (s.next_color_index % 10) "" := by
      rw [h1, h10]
    have hpal : (s.get_color c).2.palette = s.palette := by rw [h1]
    have hnext : (s.get_color c).2.next_color_index =
        s.next_color_index + 1 := by rw [h1]
    have hcyc : (s.get_color c).2.palette_cycled =
        (s.palette_cycled || (!s.palette_cycled &&
          decide (10 ≤ s.next_color_index))) := by rw [h1, h10]
    have hwarn : (s.get_color c).2.warnings = s.warnings +
        (if (!s.palette_cycled && decide (10 ≤ s.next_color_index)) = true
         then 1 else 0) := by rw [h1, h10]
    have hshow1 : (runGetColors s (c :: rest)).1 =
        (s.get_color c).1 :: (runGetColors (s.get_color c).2 rest).1 := rfl
    have hshow2 : (runGetColors s (c :: rest)).2 =
        (runGetColors (s.get_color c).2 rest).2 := rfl
    refine ⟨?_, ?_, ?_, ?_, ?_⟩
    · rw [hshow1, ih1, hfst, hpal, hnext, List.length_cons,
        List.range_succ_eq_map, List.map_cons, List.map_map]
      congr 1
      apply List.map_congr_left
      intro i hi
      simp only [Function.comp_apply, Nat.succ_eq_add_one]
      congr 2
      omega
    · rw [hshow2, ih2, hwarn, hcyc, hnext, List.length_cons]
      cases hc : s.palette_cycled <;>
        simp only [Bool.not_true, Bool.not_false, Bool.false_and, Bool.true_and,
          Bool.true_or, Bool.false_or, Bool.false_eq_true, Bool.true_eq_false,
          decide_eq_true_eq, decide_eq_false_iff_not, false_and, true_and,
          if_false, eq_self_iff_true, Nat.add_zero] <;>
        split_ifs <;> omega
    · rw [hshow2, ih3, hpal]
    · rw [hshow2, ih4, hnext, List.length_cons]
      omega
    · rw [hshow2, ih5, hcyc, hnext, List.length_cons]
      cases hc : s.palette_cycled
      · simp only [Bool.not_false, Bool.true_and, Bool.false_or]
        apply Bool.eq_iff_iff.mpr
        simp only [Bool.or_eq_true, decide_eq_true_eq]
        omega
      · simp

/-- C8: starting from a fresh assigner over the 10-color palette, requesting
colors for pairwise-distinct categories wraps around — with at least 11
requests the 11th color equals the 1st — and exactly one exhaustion warning
is emitted over the whole sequence (none when the palette is not exhausted),
regardless of further wraps; and once a manual override is defined for a
category (on any assigner state, so also after an auto-assignment), every
subsequent `get_color` for it returns the override through any further
request sequence. -/
theorem color_assignment_spec :
    (∀ cats : List String, cats.Nodup →
       ((runGetColors (ColorAssigner.mk0 COLOR_PALETTE) cats).2.warnings =
          if 11 ≤ cats.length then 1 else 0) ∧
       (11 ≤ cats.length →
          (runGetColors (ColorAssigner.mk0 COLOR_PALETTE) cats).1[10]? =
            (runGetColors (ColorAssigner.mk0 COLOR_PALETTE) cats).1[0]?)) ∧
    (∀ (s : ColorAssigner) (cat col : String) (cs : List String),
       ((runGetColors (s.define_color cat col) cs).2.get_color cat).1 = col) := by
  constructor
  · intro cats hnd
    obtain ⟨h1, h2, -, -, -⟩ := runGetColors_fresh cats
      (ColorAssigner.mk0 COLOR_PALETTE) rfl rfl (fun c _ => rfl) hnd
    have h0n : (ColorAssigner.mk0 COLOR_PALETTE).next_color_index = 0 := rfl
    have h0c : (ColorAssigner.mk0 COLOR_PALETTE).palette_cycled = false := rfl
    have h0w : (ColorAssigner.mk0 COLOR_PALETTE).warnings = 0 := rfl
    rw [h0n, h0c, h0w] at h2
    constructor
    · rw [h2]
      have hiff : (((false : Bool) = false) ∧ 1 ≤ cats.length ∧
          11 ≤ 0 + cats.length) ↔ 11 ≤ cats.length := by
        constructor
        · rintro ⟨-, -, h3⟩
          omega
        · intro h3
          exact ⟨rfl, by omega, by omega⟩
      rw [if_congr hiff rfl rfl, Nat.zero_add]
    · intro h11
      rw [h1]
      rw [List.getElem?_map, List.getElem?_map]
      rw [List.getElem?_range (by omega), List.getElem?_range (by omega)]
      rfl
  · intro s cat col cs
    have hman : dictGet? (runGetColors (s.define_color cat col) cs).2.manual_color_map
        cat = some col := by
      rw [runGetColors_manual_map]
      show dictGet? (dictSet s.manual_color_map cat col) cat = some col
      exact dictGet?_dictSet_self _ _ _
    rw [get_color_manual _ _ _ hman]

theorem color_assignment_spec_witness :
    ((runGetColors (ColorAssigner.mk0 COLOR_PALETTE)
        ["c0", "c1", "c2", "c3", "c4", "c5", "c6", "c7", "c8", "c9", "c10",
         "c11", "c12"]).2.warnings =
      if 11 ≤ (13 : Nat) then 1 else 0) ∧
    ((runGetColors (ColorAssigner.mk0 COLOR_PALETTE)
        ["c0", "c1", "c2", "c3", "c4", "c5", "c6", "c7", "c8", "c9", "c10",
         "c11", "c12"]).1[10]? =
      (runGetColors (ColorAssigner.mk0 COLOR_PALETTE)
        ["c0", "c1", "c2", "c3", "c4", "c5", "c6", "c7", "c8", "c9", "c10",
         "c11", "c12"]).1[0]?) :=
  ⟨((color_assignment_spec.1
      ["c0", "c1", "c2", "c3", "c4", "c5", "c6", "c7", "c8", "c9", "c10",
       "c11", "c12"] (by decide)).1),
   ((color_assignment_spec.1
      ["c0", "c1", "c2", "c3", "c4", "c5", "c6", "c7", "c8", "c9", "c10",
       "c11", "c12"] (by decide)).2 (by decide))⟩

/-! ## Claims C7 and C10: overlap detection -/

theorem zip_tail_get (l : List Event) (i : Nat) (p c : Event) :
    (l.zip l.tail)[i]? = some (p, c) ↔
      l[i]? = some p ∧ l.tail[i]? = some c := by
  rw [List.getElem?_zip_eq_some]

theorem mem_overlapsForDay (cs : List Event) (d : Char)
    (x : Char × Event × Event) :
    x ∈ overlapsForDay cs d ↔ ∃ i p c,
      (dailyBlocksSorted cs d)[i]? = some p ∧
      (dailyBlocksSorted cs d)[i + 1]? = some c ∧
      c.startM < p.stopM ∧ x = (d, p, c) := by
  unfold overlapsForDay
  dsimp only []
  by_cases hlen : (dailyBlocksSorted cs d).length < 2
  · rw [if_pos hlen]
    simp only [List.not_mem_nil, false_iff]
    rintro ⟨i, p, c, hp, hc, -, -⟩
    obtain ⟨h2, -⟩ := List.getElem?_eq_some.mp hc
    omega
  · rw [if_neg hlen]
    rw [List.mem_filterMap]
    constructor
    · rintro ⟨⟨p, c⟩, hmem, hx⟩
      obtain ⟨i, hi⟩ := List.mem_iff_getElem?.mp hmem
      rw [zip_tail_get] at hi
      by_cases hlt : c.startM < p.stopM
      · rw [if_pos hlt] at hx
        cases hx
        refine ⟨i, p, c, hi.1, ?_, hlt, rfl⟩
        rw [← List.getElem?_tail]
        exact hi.2
      · rw [if_neg hlt] at hx
        cases hx
    · rintro ⟨i, p, c, hp, hc, hlt, rfl⟩
      refine ⟨(p, c), ?_, ?_⟩
      · apply List.mem_iff_getElem?.mpr
        refine ⟨i, ?_⟩
        rw [zip_tail_get]
        refine ⟨hp, ?_⟩
        rw [List.getElem?_tail]
        exact hc
      · rw [if_pos hlt]

theorem mem_check_for_overlaps (cs : List Event) (x : Char × Event × Event) :
    x ∈ check_for_overlaps cs ↔
      ∃ d ∈ DAY_CODES.toList, x ∈ overlapsForDay cs d := by
  unfold check_for_overlaps
  rw [List.mem_flatten]
  constructor
  · rintro ⟨l, hl, hx⟩
    obtain ⟨d, hd, rfl⟩ := List.mem_map.mp hl
    exact ⟨d, hd, hx⟩
  · rintro ⟨d, hd, hx⟩
    exact ⟨overlapsForDay cs d, List.mem_map.mpr ⟨d, hd, rfl⟩, hx⟩

theorem mem_dailyBlocksSorted (cs : List Event) (d : Char) (e : Event) :
    e ∈ dailyBlocksSorted cs d ↔
      e ∈ cs ∧ e.isBlock = true ∧ e.day_code = d := by
  unfold dailyBlocksSorted
  rw [List.mem_insertionSort, List.mem_filter]
  simp only [Bool.and_eq_true, beq_iff_eq]

/-- Completeness of the adjacent-pair scan, with no constraint whatsoever on
the recurrences of the two blocks: any adjacent pair in the start-sorted
daily list whose times intersect is reported. -/
theorem overlapsForDay_complete (cs : List Event) (d : Char) (i : Nat)
    (p c : Event) (hd : d ∈ DAY_CODES.toList)
    (hp : (dailyBlocksSorted cs d)[i]? = some p)
    (hc : (dailyBlocksSorted cs d)[i + 1]? = some c)
    (hlt : c.startM < p.stopM) :
    (d, p, c) ∈ check_for_overlaps cs := by
  rw [mem_check_for_overlaps]
  refine ⟨d, hd, ?_⟩
  rw [mem_overlapsForDay]
  exact ⟨i, p, c, hp, hc, hlt, rfl⟩

/-- C7: overlap detection works per day on the Block commitments of that
day, stably sorted by start time, comparing adjacent pairs only; a pair is
reported exactly when the next start is strictly below the previous end.
Soundness: every finding is an adjacent pair of same-day blocks with
intersecting times.  Completeness: every intersecting adjacent pair is
reported.  The per-day list is a sorted permutation of the day's blocks and
ties keep their original order (stability).  Concretely, blocks 09:00-10:00
and 09:30-11:00 on one day produce exactly one finding, and touching blocks
09:00-10:00 and 10:00-11:00 produce none. -/
theorem overlap_detection_spec :
    (∀ (cs : List Event) (x : Char × Event × Event), x ∈ check_for_overlaps cs →
       x.1 ∈ DAY_CODES.toList ∧
       x.2.1 ∈ cs ∧ x.2.2 ∈ cs ∧
       x.2.1.isBlock = true ∧ x.2.2.isBlock = true ∧
       x.2.1.day_code = x.1 ∧ x.2.2.day_code = x.1 ∧
       x.2.2.startM < x.2.1.stopM ∧
       (∃ i, (dailyBlocksSorted cs x.1)[i]? = some x.2.1 ∧
             (dailyBlocksSorted cs x.1)[i + 1]? = some x.2.2)) ∧
    (∀ (cs : List Event) (d : Char) (i : Nat) (p c : Event),
       d ∈ DAY_CODES.toList →
       (dailyBlocksSorted cs d)[i]? = some p →
       (dailyBlocksSorted cs d)[i + 1]? = some c →
       c.startM < p.stopM →
       (d, p, c) ∈ check_for_overlaps cs) ∧
    (∀ (cs : List Event) (d : Char),
       (dailyBlocksSorted cs d).Sorted startLe ∧
       (dailyBlocksSorted cs d).Perm
         (cs.filter (fun e => e.isBlock && e.day_code == d))) ∧
    (∀ (cs : List Event) (d : Char) (a b : Event), startLe a b →
       [a, b].Sublist (cs.filter (fun e => e.isBlock && e.day_code == d)) →
       [a, b].Sublist (dailyBlocksSorted cs d)) ∧
    (check_for_overlaps [ovA, ovB] = [('M', ovA, ovB)]) ∧
    (check_for_overlaps [ovA, ovC] = []) := by
  refine ⟨?_, overlapsForDay_complete, ?_, ?_, by decide, by decide⟩
  · intro cs x hx
    obtain ⟨d, hd, hmem⟩ := (mem_check_for_overlaps cs x).mp hx
    obtain ⟨i, p, c, hp, hc, hlt, rfl⟩ := (mem_overlapsForDay cs d x).mp hmem
    have hpm : p ∈ dailyBlocksSorted cs d := by
      obtain ⟨hi, heq⟩ := List.getElem?_eq_some.mp hp
      rw [← heq]
      exact List.getElem_mem hi
    have hcm : c ∈ dailyBlocksSorted cs d := by
      obtain ⟨hi, heq⟩ := List.getElem?_eq_some.mp hc
      rw [← heq]
      exact List.getElem_mem hi
    obtain ⟨hpc, hpb, hpd⟩ := (mem_dailyBlocksSorted cs d p).mp hpm
    obtain ⟨hcc, hcb, hcd⟩ := (mem_dailyBlocksSorted cs d c).mp hcm
    exact ⟨hd, hpc, hcc, hpb, hcb, hpd, hcd, hlt, i, hp, hc⟩
  · intro cs d
    exact ⟨List.sorted_insertionSort startLe _, List.perm_insertionSort startLe _⟩
  · intro cs d a b hab hsub
    exact List.pair_sublist_insertionSort hab hsub

theorem overlap_detection_spec_witness :
    ('M', ovA, ovB) ∈ check_for_overlaps [ovA, ovB] :=
  overlap_detection_spec.2.1 [ovA, ovB] 'M' 0 ovA ovB
    (by decide) (by decide) (by decide) (by decide)

theorem dailyBlocksSorted_setRec (cs : List Event) (r : String) (d : Char) :
    dailyBlocksSorted (cs.map (Event.setRec r)) d =
      (dailyBlocksSorted cs d).map (Event.setRec r) := by
  unfold dailyBlocksSorted
  rw [List.filter_map]
  have hpf : ((fun e : Event => e.isBlock && e.day_code == d) ∘ Event.setRec r)
      = (fun e : Event => e.isBlock && e.day_code == d) := rfl
  rw [hpf]
  have hmap := List.map_insertionSort (r := startLe) (s := startLe)
    (Event.setRec r) (cs.filter (fun e => e.isBlock && e.day_code == d))
    (fun a _ b _ => Iff.rfl)
  rw [← hmap]

/-- C10: overlap detection pays no attention to recurrence.  The day filter
and sort are invariant under replacing every recurrence; any adjacent pair
of same-day blocks with intersecting times is reported with no hypothesis on
the two recurrences; and concretely a `WeekA` 09:00-10:00 block and a
`WeekB` 09:30-11:00 block on the same day — which never occur in the same
week — still produce exactly one finding. -/
theorem overlap_ignores_recurrence :
    (∀ (cs : List Event) (d : Char) (i : Nat) (p c : Event),
       d ∈ DAY_CODES.toList →
       (dailyBlocksSorted cs d)[i]? = some p →
       (dailyBlocksSorted cs d)[i + 1]? = some c →
       c.startM < p.stopM →
       (d, p, c) ∈ check_for_overlaps cs) ∧
    (∀ (cs : List Event) (r : String) (d : Char),
       dailyBlocksSorted (cs.map (Event.setRec r)) d =
         (dailyBlocksSorted cs d).map (Event.setRec r)) ∧
    (check_for_overlaps [ovA2, ovB2] = [('M', ovA2, ovB2)]) :=
  ⟨overlapsForDay_complete, fun cs r d => dailyBlocksSorted_setRec cs r d,
   by decide⟩

theorem overlap_ignores_recurrence_witness :
    ('M', ovA2, ovB2) ∈ check_for_overlaps [ovA2, ovB2] :=
  overlap_ignores_recurrence.1 [ovA2, ovB2] 'M' 0 ovA2 ovB2
    (by decide) (by decide) (by decide) (by decide)

/-! ## Commitment-list equations for the day-character loops -/

theorem triggerStep_commitments (r : String) (t : Nat) (lbl : String)
    (inl : Option String) (st : ParseState) (c : Char) :
    (triggerStep r t lbl inl st c).commitments = st.commitments ++
      [⟨r, c, .trigger t, lbl, inl,
        if isTruthy inl then (st.color_assigner.get_color (inl.getD "")).1
        else DEFAULT_TRIGGER_COLOR⟩] ∧
    (triggerStep r t lbl inl st c).color_assigner =
      (if isTruthy inl then (st.color_assigner.get_color (inl.getD "")).2
       else st.color_assigner) := by
  unfold triggerStep
  dsimp only []
  split_ifs with h <;> exact ⟨rfl, rfl⟩

theorem blockStep_commitments (r : String) (s e : Nat) (lbl : String)
    (ec : Option String) (st : ParseState) (c : Char) :
    (blockStep r s e lbl ec st c).commitments = st.commitments ++
      [⟨r, c, .block s e (decide (e < s)), lbl, ec,
        if isTruthy ec then (st.color_assigner.get_color (ec.getD "")).1
        else "gray"⟩] ∧
    (blockStep r s e lbl ec st c).color_assigner =
      (if isTruthy ec then (st.color_assigner.get_color (ec.getD "")).2
       else st.color_assigner) := by
  unfold blockStep
  dsimp only []
  split_ifs with h <;> exact ⟨rfl, rfl⟩

theorem foldl_triggerStep_commitments (r : String) (t : Nat) (lbl : String)
    (inl : Option String) (chars : List Char) :
    ∀ st : ParseState,
      (chars.foldl (triggerStep r t lbl inl) st).commitments =
        st.commitments ++ chars.map (fun c =>
          ⟨r, c, .trigger t, lbl, inl,
           if isTruthy inl then (st.color_assigner.get_color (inl.getD "")).1
           else DEFAULT_TRIGGER_COLOR⟩) := by
  induction chars with
  | nil => intro st; simp
  | cons c cs ih =>
    intro st
    show (cs.foldl _ (triggerStep r t lbl inl st c)).commitments = _
    rw [ih (triggerStep r t lbl inl st c)]
    obtain ⟨hc, ha⟩ := triggerStep_commitments r t lbl inl st c
    rw [hc, ha, List.map_cons]
    split_ifs with h
    · have hidem := get_color_idem st.color_assigner (inl.getD "")
      rw [hidem]
      simp
    · simp

theorem foldl_blockStep_commitments (r : String) (s e : Nat) (lbl : String)
    (ec : Option String) (chars : List Char) :
    ∀ st : ParseState,
      (chars.foldl (blockStep r s e lbl ec) st).commitments =
        st.commitments ++ chars.map (fun c =>
          ⟨r, c, .block s e (decide (e < s)), lbl, ec,
           if isTruthy ec then (st.color_assigner.get_color (ec.getD "")).1
           else "gray"⟩) := by
  induction chars with
  | nil => intro st; simp
  | cons c cs ih =>
    intro st
    show (cs.foldl _ (blockStep r s e lbl ec st c)).commitments = _
    rw [ih (blockStep r s e lbl ec st c)]
    obtain ⟨hc, ha⟩ := blockStep_commitments r s e lbl ec st c
    rw [hc, ha, List.map_cons]
    split_ifs with h
    · have hidem := get_color_idem st.color_assigner (ec.getD "")
      rw [hidem]
      simp
    · simp

/-! ## Characterization of well-formed commitment lines -/

theorem get?_of_lt (words : List String) (n : Nat) (h : n < words.length) :
    words.get? n = some (words.getD n "") := by
  rw [List.get?_eq_getElem?, List.getD_eq_getElem?_getD]
  cases hq : words[n]? with
  | none =>
    rw [List.getElem?_eq_none_iff] at hq
    omega
  | some w => rfl

theorem isTriggerShape_false (words : List String) (e : Nat)
    (hlen : 4 ≤ words.length) (he : parseTime? (words.getD 3 "") = some e) :
    isTriggerShape words = false := by
  unfold isTriggerShape
  rw [get?_of_lt words 3 (by omega)]
  dsimp only []
  unfold parseTime? at he
  cases hp : parse_dt_model (words.getD 3 "") with
  | none => rw [hp] at he; cases he
  | some hm => rfl

theorem parseCommitmentLine_block_eq (st : ParseState) (line : String)
    (inline : Option String) (words : List String) (s e : Nat)
    (hiw : extractInline line = (inline, words))
    (hlen : 4 ≤ words.length)
    (hs : parseTime? (words.getD 2 "") = some s)
    (he : parseTime? (words.getD 3 "") = some e) :
    (parseCommitmentLine st line).commitments =
      st.commitments ++ (dayCharsOf words).map (fun c =>
        ⟨words.getD 0 "", c, .block s e (decide (e < s)),
         joinWords ' ' (words.drop 4), pyOr inline st.current_category,
         if isTruthy (pyOr inline st.current_category) = true
         then (st.color_assigner.get_color
                ((pyOr inline st.current_category).getD "")).1
         else "gray"⟩) ∧
    (parseCommitmentLine st line).parsing_errors_found =
      st.parsing_errors_found := by
  have htrig := isTriggerShape_false words e hlen he
  unfold parseCommitmentLine
  dsimp only []
  rw [hiw]
  dsimp only []
  rw [if_neg (by omega : ¬ words.length < 3), htrig]
  rw [if_neg (by simp : ¬ ((false : Bool) = true))]
  rw [hs, he]
  dsimp only []
  rw [foldl_blockStep_commitments]
  obtain ⟨hpe, -, hcc, -, hca, hcm⟩ := inlineAdd_misc st inline
  rw [hcm, hca, hcc]
  refine ⟨rfl, ?_⟩
  obtain ⟨hperr, -, -, -⟩ := foldl_blockStep_misc _ s e _ _
    (dayCharsOf words) (inlineAdd st inline)
  rw [hperr, hpe]

theorem parseCommitmentLine_trigger_eq (st : ParseState) (line : String)
    (inline : Option String) (words : List String) (t : Nat)
    (hiw : extractInline line = (inline, words))
    (hlen : 3 ≤ words.length)
    (htrig : isTriggerShape words = true)
    (ht : parseTime? (words.getD 2 "") = some t) :
    (parseCommitmentLine st line).commitments =
      st.commitments ++ (dayCharsOf words).map (fun c =>
        ⟨words.getD 0 "", c, .trigger t, joinWords ' ' (words.drop 3), inline,
         if isTruthy inline = true
         then (st.color_assigner.get_color (inline.getD "")).1
         else DEFAULT_TRIGGER_COLOR⟩) ∧
    (parseCommitmentLine st line).parsing_errors_found =
      st.parsing_errors_found := by
  unfold parseCommitmentLine
  dsimp only []
  rw [hiw]
  dsimp only []
  rw [if_neg (by omega : ¬ words.length < 3), htrig, if_pos rfl, ht]
  dsimp only []
  rw [foldl_triggerStep_commitments]
  obtain ⟨hpe, -, -, -, hca, hcm⟩ := inlineAdd_misc st inline
  rw [hcm, hca]
  refine ⟨rfl, ?_⟩
  obtain ⟨hperr, -, -, -⟩ := foldl_triggerStep_misc _ t _ _
    (dayCharsOf words) (inlineAdd st inline)
  rw [hperr, hpe]

/-! ## Claim C3: one commitment record per valid day letter -/

/-- C3: a well-formed commitment line whose day-letters token has length n
produces exactly one record per character of the token that is a valid day
letter — at most n records, exactly n when every character is valid, zero
contribution and no error for invalid characters — and all records share the
same recurrence, time(s), label, category and color (they are one template
mapped over the retained letters).  Stated for both block and trigger
shapes. -/
theorem commitment_line_day_fanout :
    (∀ (st : ParseState) (line : String) (inline : Option String)
       (words : List String) (s e : Nat),
       extractInline line = (inline, words) → 4 ≤ words.length →
       parseTime? (words.getD 2 "") = some s →
       parseTime? (words.getD 3 "") = some e →
       (parseCommitmentLine st line).commitments =
         st.commitments ++ (dayCharsOf words).map (fun c =>
           ⟨words.getD 0 "", c, .block s e (decide (e < s)),
            joinWords ' ' (words.drop 4), pyOr inline st.current_category,
            if isTruthy (pyOr inline st.current_category) = true
            then (st.color_assigner.get_color
                   ((pyOr inline st.current_category).getD "")).1
            else "gray"⟩) ∧
       (parseCommitmentLine st line).parsing_errors_found =
         st.parsing_errors_found) ∧
    (∀ (st : ParseState) (line : String) (inline : Option String)
       (words : List String) (t : Nat),
       extractInline line = (inline, words) → 3 ≤ words.length →
       isTriggerShape words = true →
       parseTime? (words.getD 2 "") = some t →
       (parseCommitmentLine st line).commitments =
         st.commitments ++ (dayCharsOf words).map (fun c =>
           ⟨words.getD 0 "", c, .trigger t, joinWords ' ' (words.drop 3),
            inline,
            if isTruthy inline = true
            then (st.color_assigner.get_color (inline.getD "")).1
            else DEFAULT_TRIGGER_COLOR⟩) ∧
       (parseCommitmentLine st line).parsing_errors_found =
         st.parsing_errors_found) ∧
    (∀ words : List String,
       (dayCharsOf words).length ≤ (words.getD 1 "").data.length ∧
       ((∀ c ∈ (words.getD 1 "").data.map Char.toUpper,
           c ∈ DAY_CODES.toList) →
        (dayCharsOf words).length = (words.getD 1 "").data.length)) := by
  refine ⟨parseCommitmentLine_block_eq, parseCommitmentLine_trigger_eq, ?_⟩
  intro words
  constructor
  · calc (dayCharsOf words).length
        ≤ ((words.getD 1 "").data.map Char.toUpper).length :=
          List.length_filter_le _ _
      _ = (words.getD 1 "").data.length := List.length_map _ _
  · intro hall
    unfold dayCharsOf
    rw [List.filter_eq_self.mpr, List.length_map]
    intro c hc
    simpa using hall c hc

theorem commitment_line_day_fanout_witness :
    (parseCommitmentLine initState "Weekly MWF 9a 10a Gym").commitments =
      [⟨"Weekly", 'M', .block 540 600 false, "Gym", none, "gray"⟩,
       ⟨"Weekly", 'W', .block 540 600 false, "Gym", none, "gray"⟩,
       ⟨"Weekly", 'F', .block 540 600 false, "Gym", none, "gray"⟩] := by
  have h := (commitment_line_day_fanout.1 initState "Weekly MWF 9a 10a Gym"
    none ["Weekly", "MWF", "9a", "10a", "Gym"] 540 600 (by decide) (by decide)
    (by decide) (by decide)).1
  rw [h]
  decide

/-! ## Claim C9: trigger categories come from the inline tag only -/

/-- C9: for a trigger line, the effective category stored in every produced
record is the inline category only — the template below does not mention the
context category, and replacing the context category changes nothing — and
with no inline category the records carry `category = none` and the fixed
default trigger color, which differs from the fixed `gray` used for
uncategorized blocks. -/
theorem trigger_category_spec :
    (∀ (st : ParseState) (line : String) (inline : Option String)
       (words : List String) (t : Nat),
       extractInline line = (inline, words) → 3 ≤ words.length →
       isTriggerShape words = true →
       parseTime? (words.getD 2 "") = some t →
       ((parseCommitmentLine st line).commitments =
          st.commitments ++ (dayCharsOf words).map (fun c =>
            ⟨words.getD 0 "", c, .trigger t, joinWords ' ' (words.drop 3),
             inline,
             if isTruthy inline = true
             then (st.color_assigner.get_color (inline.getD "")).1
             else DEFAULT_TRIGGER_COLOR⟩)) ∧
       (inline = none →
          (parseCommitmentLine st line).commitments =
            st.commitments ++ (dayCharsOf words).map (fun c =>
              ⟨words.getD 0 "", c, .trigger t, joinWords ' ' (words.drop 3),
               none, DEFAULT_TRIGGER_COLOR⟩)) ∧
       (∀ o : Option String,
          (parseCommitmentLine { st with current_category := o } line).commitments
            = (parseCommitmentLine st line).commitments)) ∧
    DEFAULT_TRIGGER_COLOR ≠ "gray" := by
  refine ⟨?_, by decide⟩
  intro st line inline words t hiw hlen htrig ht
  have h1 := (parseCommitmentLine_trigger_eq st line inline words t
    hiw hlen htrig ht).1
  refine ⟨h1, ?_, ?_⟩
  · rintro rfl
    rw [h1]
    rfl
  · intro o
    have h2 := (parseCommitmentLine_trigger_eq { st with current_category := o }
      line inline words t hiw hlen htrig ht).1
    rw [h1, h2]

theorem trigger_category_spec_witness :
    (parseCommitmentLine initState "Weekly M 8a Wake up").commitments =
      [⟨"Weekly", 'M', .trigger 480, "Wake up", none, "black"⟩] := by
  have h := ((trigger_category_spec.1 initState "Weekly M 8a Wake up" none
    ["Weekly", "M", "8a", "Wake", "up"] 480 (by decide) (by decide)
    (by decide) (by decide)).2.1) rfl
  rw [h]
  decide

/-! ## Claim C5: the spans_midnight invariant -/

theorem parseCommitmentLine_blocks_ok (st : ParseState) (line : String)
    (hs : ∀ ev ∈ st.commitments, BlockOk ev) :
    ∀ ev ∈ (parseCommitmentLine st line).commitments, BlockOk ev := by
  have hsA : ∀ ev ∈ (inlineAdd st (extractInline line).1).commitments,
      BlockOk ev := by
    rw [(inlineAdd_misc st (extractInline line).1).2.2.2.2.2]
    exact hs
  unfold parseCommitmentLine
  dsimp only []
  split
  · exact hsA
  · split
    · split
      · rename_i t ht
        intro ev hev
        rw [foldl_triggerStep_commitments] at hev
        rcases List.mem_append.mp hev with h | h
        · exact hsA ev h
        · obtain ⟨c, -, rfl⟩ := List.mem_map.mp h
          intro s' e' sm' hk
          cases hk
      · split
        · exact hsA
        · intro ev hev
          exact hsA ev hev
    · split
      · rename_i s e hs2 he2
        intro ev hev
        rw [foldl_blockStep_commitments] at hev
        rcases List.mem_append.mp hev with h | h
        · exact hsA ev h
        · obtain ⟨c, -, rfl⟩ := List.mem_map.mp h
          intro s' e' sm' hk
          cases hk
          refine ⟨rfl, ?_, ?_⟩
          · unfold parseTime? at hs2
            cases hp : parse_dt_model ((extractInline line).2.getD 2 "") with
            | none => rw [hp] at hs2; cases hs2
            | some hm =>
              rw [hp] at hs2
              simp only [Option.map_some'] at hs2
              obtain ⟨hb1, hb2⟩ := parse_dt_model_bounds hp
              cases hs2
              omega
          · unfold parseTime? at he2
            cases hp : parse_dt_model ((extractInline line).2.getD 3 "") with
            | none => rw [hp] at he2; cases he2
            | some hm =>
              rw [hp] at he2
              simp only [Option.map_some'] at he2
              obtain ⟨hb1, hb2⟩ := parse_dt_model_bounds hp
              cases he2
              omega
      · split
        · exact hsA
        · intro ev hev
          exact hsA ev hev

theorem processLine_blocks_ok (st st1 : ParseState) (line : String)
    (h : processLine st line = .ok st1)
    (hs : ∀ ev ∈ st.commitments, BlockOk ev) :
    ∀ ev ∈ st1.commitments, BlockOk ev := by
  unfold processLine at h
  dsimp only [] at h
  by_cases h1 : ((pytrim line).data.isEmpty || headIs '#' (pytrim line)) = true
  · rw [if_pos h1] at h; cases h; exact hs
  rw [if_neg h1] at h
  by_cases h2 : (lowerList (pytrim (pytrim line)).data ==
      "[non-work-definition]".data) = true
  · rw [if_pos h2] at h; cases h; exact hs
  rw [if_neg h2] at h
  by_cases h3 : headIs '@' (pytrim line) = true
  · rw [if_pos h3] at h
    by_cases h4 : 2 ≤ (pysplit1 ⟨(pytrim line).data.drop 1⟩ ':').length
    · rw [if_pos h4] at h; cases h; exact hs
    · rw [if_neg h4] at h; cases h; exact hs
  rw [if_neg h3] at h
  by_cases h5 : st.in_non_work_section = true
  · rw [if_pos h5] at h
    by_cases h6 : (pysplit1 (pytrim line) '=').length = 2
    · rw [if_pos h6] at h
      by_cases h7 : (pytrim ((pysplit1 (pytrim line) '=').getD 0 "") ==
          "non_work_categories") = true
      · rw [if_pos h7] at h; cases h; exact hs
      · rw [if_neg h7] at h; cases h; exact hs
    · rw [if_neg h6] at h; cases h
  · rw [if_neg h5] at h
    cases h
    exact parseCommitmentLine_blocks_ok st (pytrim line) hs

theorem parseLines_blocks_ok (lines : List String) :
    ∀ (st st1 : ParseState), parseLines lines st = .ok st1 →
      (∀ ev ∈ st.commitments, BlockOk ev) →
      ∀ ev ∈ st1.commitments, BlockOk ev := by
  induction lines with
  | nil =>
    intro st st1 h hs
    cases h
    exact hs
  | cons l ls ih =>
    intro st st1 h hs
    unfold parseLines at h
    cases hp : processLine st l with
    | error e => rw [hp] at h; cases h
    | ok st2 =>
      rw [hp] at h
      exact ih st2 st1 h (processLine_blocks_ok st st2 l hp hs)

theorem blockDurationHours_self (s : Nat) : blockDurationHours s s = 0 := by
  unfold blockDurationHours
  dsimp only []
  rw [sub_self]
  norm_num

/-- C5: every block produced by a successful parse pass has
`spans_midnight = true` exactly when its end is below its start in the
normalized time order, its duration `(end - start) mod 24h` lies in
`[0, 24)`, and a block with equal start and end is legal and contributes
zero hours. -/
theorem spans_midnight_spec :
    ∀ (lines : List String)
      (res : List Event × List String × List String × Bool),
      parse_content lines = .ok res →
      ∀ e ∈ res.1, ∀ s e2 sm, e.kind = .block s e2 sm →
        ((sm = true) ↔ e2 < s) ∧
        0 ≤ blockDurationHours s e2 ∧ blockDurationHours s e2 < 24 ∧
        (s = e2 → blockDurationHours s e2 = 0) := by
  intro lines res h e he s e2 sm hk
  unfold parse_content at h
  cases hp : parseLines lines initState with
  | error msg => rw [hp] at h; cases h
  | ok st =>
    rw [hp] at h
    cases h
    have hok := parseLines_blocks_ok lines initState st hp
      (by intro ev hev; cases hev) e he
    obtain ⟨hsm, hlt1, hlt2⟩ := hok s e2 sm hk
    refine ⟨?_, (blockDuration_mod s e2 hlt1 hlt2).2.1,
      (blockDuration_mod s e2 hlt1 hlt2).2.2, ?_⟩
    · rw [hsm]
      exact decide_eq_true_iff
    · rintro rfl
      exact blockDurationHours_self s

theorem spans_midnight_spec_witness :
    ((true = true) ↔ (120 : Nat) < 1260) ∧
    0 ≤ blockDurationHours 1260 120 ∧ blockDurationHours 1260 120 < 24 ∧
    ((1260 : Nat) = 120 → blockDurationHours 1260 120 = 0) :=
  spans_midnight_spec ["Weekly M 21:00 2:00 Sleep"]
    ([⟨"Weekly", 'M', .block 1260 120 true, "Sleep", none, "gray"⟩],
      [], [], false)
    (by decide)
    ⟨"Weekly", 'M', .block 1260 120 true, "Sleep", none, "gray"⟩
    (by decide) 1260 120 true rfl

end Unscheduler
